import Mathlib

/-
Verification of the Minesweeper knowledge-base engine
(source: minesweeper/minesweeper.py).

Modelling conventions, fixed throughout this file:
* A board cell is a pair of Python integers, modelled as `Int × Int`.
* A Python `set` is modelled as a duplicate-free `List` in insertion order:
  `set.add` is `pyAdd` (append when absent), `set.union` is `pyUnion`
  (fold of `pyAdd`), set difference is `pyDiff` (filter), `set.remove` on an
  element known to be present is `List.erase`, and `len` is `List.length`.
  Iteration over a set (`for x in s`) is a fold over that list.
* Python `is` between the small machine integers compared in this program
  (lengths, grid sizes, literal `0`) behaves as numeric equality in CPython,
  and is modelled as `=`.
* `random.sample(s, 1)[0]` is modelled by an injected selection function
  `sample` whose only assumed property, where needed, is that it returns an
  element of its (nonempty) argument.
* Python list indexing `l[i]` (which wraps negative indices and raises
  `IndexError` past either end) is modelled by `pyIndex`, returning `none`
  exactly where Python raises.
-/

/-- A grid coordinate `(row, col)`, a pair of Python integers. -/
abbrev Cell := Int × Int

/-- `set.add`: append the element when it is not already present. -/
def pyAdd {α : Type} [DecidableEq α] (l : List α) (a : α) : List α :=
  if a ∈ l then l else l ++ [a]

/-- `s1.union(s2)`: add every element of the second set to the first. -/
def pyUnion {α : Type} [DecidableEq α] (l₁ l₂ : List α) : List α :=
  l₂.foldl pyAdd l₁

/-- `s1 - s2`: the elements of the first set not in the second. -/
def pyDiff {α : Type} [DecidableEq α] (l₁ l₂ : List α) : List α :=
  l₁.filter (fun a => a ∉ l₂)

/-- `Sentence.__init__`: a set of board cells and a count of how many of
them are mines.  The count is a Python integer (it is decremented without
any guard in `mark_mine`, so it can become negative). -/
structure Sentence where
  cells : List Cell
  count : Int
deriving DecidableEq

/-- `Sentence.known_mines`: all cells are mines when the number of cells
equals the count (`if len(self.cells) == self.count: return self.cells`,
else the empty set). -/
def Sentence.known_mines (s : Sentence) : List Cell :=
  if (s.cells.length : Int) = s.count then s.cells else []

/-- `Sentence.known_safes`: all cells are safe when the count is zero
(`if self.count is 0: return self.cells`, else the empty set). -/
def Sentence.known_safes (s : Sentence) : List Cell :=
  if s.count = 0 then s.cells else []

/-- `Sentence.mark_mine`: if the cell is in the sentence, remove it and
decrement the count; otherwise do nothing. -/
def Sentence.mark_mine (s : Sentence) (cell : Cell) : Sentence :=
  if cell ∈ s.cells then ⟨s.cells.erase cell, s.count - 1⟩ else s

/-- `Sentence.mark_safe`: if the cell is in the sentence, remove it; the
count is unchanged. -/
def Sentence.mark_safe (s : Sentence) (cell : Cell) : Sentence :=
  if cell ∈ s.cells then ⟨s.cells.erase cell, s.count⟩ else s

/-- `MinesweeperAI.__init__` state: the dimensions, the moves made, the
cells known to be mines or safe, and the list of sentences. -/
structure MinesweeperAI where
  height : Nat
  width : Nat
  moves_made : List Cell
  mines : List Cell
  safes : List Cell
  knowledge : List Sentence
deriving DecidableEq

/-- `MinesweeperAI.__init__(height, width)`: empty sets, empty knowledge. -/
def MinesweeperAI.start (height width : Nat) : MinesweeperAI :=
  ⟨height, width, [], [], [], []⟩

/-- `MinesweeperAI.mark_mine`: add the cell to `self.mines` and mark it in
every sentence of the knowledge base. -/
def MinesweeperAI.mark_mine (ai : MinesweeperAI) (cell : Cell) : MinesweeperAI :=
  { ai with mines := pyAdd ai.mines cell,
            knowledge := ai.knowledge.map (fun s => s.mark_mine cell) }

/-- `MinesweeperAI.mark_safe`: add the cell to `self.safes` and mark it in
every sentence of the knowledge base. -/
def MinesweeperAI.mark_safe (ai : MinesweeperAI) (cell : Cell) : MinesweeperAI :=
  { ai with safes := pyAdd ai.safes cell,
            knowledge := ai.knowledge.map (fun s => s.mark_safe cell) }

/-- The 3×3 scan of `__get_neighbors`: `i` in
`range(cell[0]-1, cell[0]+2)`, `j` in `range(cell[1]-1, cell[1]+2)`,
in loop order. -/
def box3 (cell : Cell) : List Cell :=
  ([cell.1 - 1, cell.1, cell.1 + 1]).flatMap
    (fun i => ([cell.2 - 1, cell.2, cell.2 + 1]).map (fun j => (i, j)))

/-- `MinesweeperAI.__get_neighbors`: every in-bounds cell of the 3×3 box
other than the cell itself, accumulated into a set. -/
def MinesweeperAI.get_neighbors (ai : MinesweeperAI) (cell : Cell) : List Cell :=
  (box3 cell).foldl
    (fun acc p =>
      if p ≠ cell ∧ 0 ≤ p.1 ∧ p.1 < (ai.height : Int) ∧ 0 ≤ p.2 ∧ p.2 < (ai.width : Int)
      then pyAdd acc p else acc) []

/-- `MinesweeperAI.__infer_new_knowledge`: (a) re-mark every tracked mine
and every tracked safe cell into every sentence, then (b) for every
sentence, union its `known_safes()` into `self.safes` and its
`known_mines()` into `self.mines`.  (The subset-inference block that the
source carries below this code is commented out there and therefore has no
counterpart here.) -/
def MinesweeperAI.infer_new_knowledge (ai : MinesweeperAI) : MinesweeperAI :=
  let a1 := ai.mines.foldl (fun a c => a.mark_mine c) ai
  let a2 := a1.safes.foldl (fun a c => a.mark_safe c) a1
  a2.knowledge.foldl
    (fun a s => { a with safes := pyUnion a.safes s.known_safes,
                         mines := pyUnion a.mines s.known_mines }) a2

/-- `MinesweeperAI.add_knowledge(cell, count)`: record the move, mark the
cell safe, append the sentence built from the cell's neighbors and the
clue count, then run the propagation loop.  The source loop
(`while True: ...; __infer_new_knowledge(); if the knowledge list has the
same length, break`) executes its body exactly once, because the pass never
changes the length of the knowledge list (theorem
`infer_new_knowledge_fixes_length` below); so the loop is one call of the
pass. -/
def MinesweeperAI.add_knowledge (ai : MinesweeperAI) (cell : Cell) (count : Int) :
    MinesweeperAI :=
  let a1 : MinesweeperAI := { ai with moves_made := pyAdd ai.moves_made cell }
  let a2 := a1.mark_safe cell
  let a3 : MinesweeperAI :=
    { a2 with knowledge := a2.knowledge ++ [⟨a2.get_neighbors cell, count⟩] }
  a3.infer_new_knowledge

/-- The engine state after feeding a list of `(cell, clue)` pairs, in
order, to `add_knowledge`, starting from a fresh `MinesweeperAI`. -/
def runClues (height width : Nat) (clues : List (Cell × Int)) : MinesweeperAI :=
  clues.foldl (fun a p => a.add_knowledge p.1 p.2) (MinesweeperAI.start height width)

/-- `MinesweeperAI.make_safe_move`: `None` when
`len(moves_made) + len(mines)` equals `height * width`, otherwise `None`
when `safes - moves_made` is empty, otherwise a sampled element of that
set.  `sample` stands for `random.sample(·, 1)[0]`. -/
def MinesweeperAI.make_safe_move (ai : MinesweeperAI) (sample : List Cell → Cell) :
    Option Cell :=
  if ai.moves_made.length + ai.mines.length = ai.height * ai.width then none
  else if (pyDiff ai.safes ai.moves_made).length = 0 then none
  else some (sample (pyDiff ai.safes ai.moves_made))

/-- The grid cells `(i, j)` for `i in range(height)`, `j in range(width)`,
in the row-major order of the loops of `make_random_move`. -/
def gridCells (height width : Nat) : List Cell :=
  (List.range height).flatMap
    (fun (i : Nat) => (List.range width).map (fun (j : Nat) => ((↑i, ↑j) : Cell)))

/-- `MinesweeperAI.make_random_move`: `None` when
`len(moves_made) + len(mines)` equals `height * width`; otherwise scan the
grid in row-major order and return the first cell that is in neither
`self.mines` nor `self.moves_made` (falling off the end returns Python's
implicit `None`). -/
def MinesweeperAI.make_random_move (ai : MinesweeperAI) : Option Cell :=
  if ai.moves_made.length + ai.mines.length = ai.height * ai.width then none
  else (gridCells ai.height ai.width).find?
    (fun c => decide (c ∉ ai.mines ∧ c ∉ ai.moves_made))

/-- `Minesweeper.__init__` result: the dimensions, the boolean board, and
the set of mine coordinates (a set of pairs of `randrange` results, hence
natural numbers). -/
structure Minesweeper where
  height : Nat
  width : Nat
  board : List (List Bool)
  mines : List (Nat × Nat)
deriving DecidableEq

/-- `self.board[i][j] = True` inside the mine-placement loop (both indices
are `randrange` results, hence in range; `List.set` past the end would be
a no-op but is never reached under that precondition). -/
def setBoard (board : List (List Bool)) (i j : Nat) : List (List Bool) :=
  board.set i ((board.getD i []).set j true)

/-- The mine-placement loop of `Minesweeper.__init__`:
`while len(self.mines) != mines:` draw `(i, j)`, and when `board[i][j]` is
still false, add the pair to the mine set and set the board entry.  The
random draws are modelled as an injected list `picks` of `randrange`
results (so each pick is in range; see the theorem hypotheses); `none`
means the pick stream was exhausted before the loop condition became
false — in particular the source loop, which draws forever, never
terminates in that case.  The board read is modelled with a default of
`true` (a pick outside the lists is skipped), which is never reached for
in-range picks. -/
def placeMinesLoop (target : Nat) :
    List (Nat × Nat) → List (Nat × Nat) → List (List Bool) →
      Option (List (Nat × Nat) × List (List Bool))
  | [], ms, bd => if ms.length = target then some (ms, bd) else none
  | (i, j) :: rest, ms, bd =>
    if ms.length = target then some (ms, bd)
    else if (bd.getD i []).getD j true then placeMinesLoop target rest ms bd
    else placeMinesLoop target rest (pyAdd ms (i, j)) (setBoard bd i j)

/-- `Minesweeper.__init__(height, width, mines)`: start from an all-false
`height × width` board and an empty mine set, then run the placement loop
on the injected stream of random draws. -/
def Minesweeper.construct (height width mines : Nat) (picks : List (Nat × Nat)) :
    Option Minesweeper :=
  (placeMinesLoop mines picks [] (List.replicate height (List.replicate width false))).map
    (fun r => ⟨height, width, r.2, r.1⟩)

/-- Python list subscription `l[i]`: a negative index within `-len l`
counts from the end; an index past either end raises `IndexError`,
modelled as `none`. -/
def pyIndex {α : Type} (l : List α) (i : Int) : Option α :=
  if 0 ≤ i ∧ i < (l.length : Int) then l[i.toNat]?
  else if -(l.length : Int) ≤ i ∧ i < 0 then l[((l.length : Int) + i).toNat]?
  else none

/-- `Minesweeper.is_mine(cell)`: `i, j = cell; return self.board[i][j]`,
with Python subscription semantics on both levels. -/
def Minesweeper.is_mine (m : Minesweeper) (cell : Cell) : Option Bool :=
  (pyIndex m.board cell.1).bind (fun row => pyIndex row cell.2)

/-- A concrete selection function standing in for `random.sample(·, 1)[0]`:
the head of the list.  Any function returning an element of its argument is
an admissible model of the sampler. -/
def sampleHead (l : List Cell) : Cell :=
  l.headD ((0 : Int), (0 : Int))

/-- An engine state holding exactly the two statements of the spec's
concrete scenario B, `{A,B,C} = 2` and `{A,B} = 1`, with
`A = (0,0)`, `B = (0,1)`, `C = (0,2)` and nothing else known. -/
def scenarioB : MinesweeperAI :=
  ⟨3, 3, [], [], [],
    [⟨[((0 : Int), (0 : Int)), ((0 : Int), (1 : Int)), ((0 : Int), (2 : Int))], 2⟩,
     ⟨[((0 : Int), (0 : Int)), ((0 : Int), (1 : Int))], 1⟩]⟩

/-- A well-formed 1×1 board with no mine. -/
def M11 : Minesweeper :=
  ⟨1, 1, [[false]], []⟩

/-- The 2×2 board produced by `Minesweeper.construct 2 2 2 [(0,0),(1,1)]`. -/
def M22 : Minesweeper :=
  ⟨2, 2, [[true, false], [false, true]], [(0, 0), (1, 1)]⟩

/-- One engine state refines another when the dimensions and moves agree,
the safe and mine sets have only grown, and the knowledge list has the
same statements in order with each statement's cell set only shrunk.
Every mutation performed inside `__infer_new_knowledge` is of this shape. -/
def AIStep (a b : MinesweeperAI) : Prop :=
  a.height = b.height ∧ a.width = b.width ∧ a.moves_made = b.moves_made ∧
  a.safes ⊆ b.safes ∧ a.mines ⊆ b.mines ∧
  List.Forall₂ (fun s t : Sentence => t.cells ⊆ s.cells) a.knowledge b.knowledge

/-! ### Basic facts about the Python-set model -/

theorem mem_pyAdd {α : Type} [DecidableEq α] (l : List α) (a x : α) :
    x ∈ pyAdd l a ↔ x ∈ l ∨ x = a := by
  unfold pyAdd
  by_cases h : a ∈ l
  · rw [if_pos h]
    constructor
    · exact Or.inl
    · rintro (hx | rfl)
      · exact hx
      · exact h
  · rw [if_neg h]
    simp

theorem subset_pyAdd {α : Type} [DecidableEq α] (l : List α) (a : α) :
    l ⊆ pyAdd l a := by
  intro x hx
  exact (mem_pyAdd l a x).mpr (Or.inl hx)

theorem subset_pyUnion_left {α : Type} [DecidableEq α] (l₁ l₂ : List α) :
    l₁ ⊆ pyUnion l₁ l₂ := by
  unfold pyUnion
  induction l₂ generalizing l₁ with
  | nil => exact fun x hx => hx
  | cons b t ih => exact fun x hx => ih (pyAdd l₁ b) (subset_pyAdd l₁ b hx)

theorem pyAdd_subset_pyAdd {α : Type} [DecidableEq α] {l₁ l₂ : List α} (a : α)
    (h : l₁ ⊆ l₂) : pyAdd l₁ a ⊆ pyAdd l₂ a := by
  intro x hx
  rcases (mem_pyAdd l₁ a x).mp hx with hx' | hxe
  · exact subset_pyAdd l₂ a (h hx')
  · exact (mem_pyAdd l₂ a x).mpr (Or.inr hxe)

/-! ### The refinement shape of the propagation pass -/

theorem forall2_cells_refl (l : List Sentence) :
    List.Forall₂ (fun s t : Sentence => t.cells ⊆ s.cells) l l :=
  List.forall₂_same.mpr (fun _ _ => List.Subset.refl _)

theorem forall2_cells_trans {l₁ l₂ l₃ : List Sentence}
    (h₁ : List.Forall₂ (fun s t : Sentence => t.cells ⊆ s.cells) l₁ l₂)
    (h₂ : List.Forall₂ (fun s t : Sentence => t.cells ⊆ s.cells) l₂ l₃) :
    List.Forall₂ (fun s t : Sentence => t.cells ⊆ s.cells) l₁ l₃ := by
  induction h₁ generalizing l₃ with
  | nil => cases h₂; exact List.Forall₂.nil
  | cons h t ih =>
    cases h₂ with
    | cons h' t' => exact List.Forall₂.cons (h'.trans h) (ih t')

theorem forall2_cells_map (l : List Sentence) {f : Sentence → Sentence}
    (hf : ∀ s, (f s).cells ⊆ s.cells) :
    List.Forall₂ (fun s t : Sentence => t.cells ⊆ s.cells) l (l.map f) := by
  induction l with
  | nil => exact List.Forall₂.nil
  | cons s t ih => exact List.Forall₂.cons (hf s) ih

theorem Sentence.mark_mine_cells_subset (s : Sentence) (c : Cell) :
    (s.mark_mine c).cells ⊆ s.cells := by
  unfold Sentence.mark_mine
  split
  · exact fun x hx => List.mem_of_mem_erase hx
  · exact List.Subset.refl _

theorem Sentence.mark_safe_cells_subset (s : Sentence) (c : Cell) :
    (s.mark_safe c).cells ⊆ s.cells := by
  unfold Sentence.mark_safe
  split
  · exact fun x hx => List.mem_of_mem_erase hx
  · exact List.Subset.refl _

theorem aistep_refl (a : MinesweeperAI) : AIStep a a :=
  ⟨rfl, rfl, rfl, List.Subset.refl _, List.Subset.refl _, forall2_cells_refl _⟩

theorem aistep_trans {a b c : MinesweeperAI} (h₁ : AIStep a b) (h₂ : AIStep b c) :
    AIStep a c := by
  obtain ⟨e₁, e₂, e₃, s₁, s₂, f₁⟩ := h₁
  obtain ⟨e₁', e₂', e₃', s₁', s₂', f₁'⟩ := h₂
  exact ⟨e₁.trans e₁', e₂.trans e₂', e₃.trans e₃', s₁.trans s₁', s₂.trans s₂',
    forall2_cells_trans f₁ f₁'⟩

theorem aistep_mark_mine (a : MinesweeperAI) (c : Cell) : AIStep a (a.mark_mine c) :=
  ⟨rfl, rfl, rfl, List.Subset.refl _, subset_pyAdd _ _,
    forall2_cells_map _ (fun s => s.mark_mine_cells_subset c)⟩

theorem aistep_mark_safe (a : MinesweeperAI) (c : Cell) : AIStep a (a.mark_safe c) :=
  ⟨rfl, rfl, rfl, subset_pyAdd _ _, List.Subset.refl _,
    forall2_cells_map _ (fun s => s.mark_safe_cells_subset c)⟩

theorem aistep_foldl {β : Type} (f : MinesweeperAI → β → MinesweeperAI)
    (hf : ∀ a c, AIStep a (f a c)) (l : List β) :
    ∀ a, AIStep a (l.foldl f a) := by
  induction l with
  | nil => exact fun a => aistep_refl a
  | cons b t ih => exact fun a => aistep_trans (hf a b) (ih (f a b))

theorem aistep_infer (a : MinesweeperAI) : AIStep a a.infer_new_knowledge := by
  simp only [MinesweeperAI.infer_new_knowledge]
  refine aistep_trans (aistep_foldl _ aistep_mark_mine a.mines a)
    (aistep_trans (aistep_foldl _ aistep_mark_safe _ _) (aistep_foldl _ ?_ _ _))
  exact fun x s => ⟨rfl, rfl, rfl, subset_pyUnion_left _ _, subset_pyUnion_left _ _,
    forall2_cells_refl _⟩

/-- The propagation pass never changes the length of the knowledge list;
this is why the `while` loop of `add_knowledge`, which stops as soon as the
length is unchanged across an iteration, runs its body exactly once. -/
theorem infer_new_knowledge_fixes_length (ai : MinesweeperAI) :
    ai.infer_new_knowledge.knowledge.length = ai.knowledge.length :=
  ((aistep_infer ai).2.2.2.2.2.length_eq).symm

theorem add_knowledge_moves (ai : MinesweeperAI) (c : Cell) (k : Int) :
    (ai.add_knowledge c k).moves_made = pyAdd ai.moves_made c :=
  ((aistep_infer _).2.2.1).symm

theorem add_knowledge_safes_sub (ai : MinesweeperAI) (c : Cell) (k : Int) :
    pyAdd ai.safes c ⊆ (ai.add_knowledge c k).safes := by
  simp only [MinesweeperAI.add_knowledge]
  refine List.Subset.trans ?_ ((aistep_infer _).2.2.2.1)
  exact fun x hx => hx

theorem add_knowledge_len (ai : MinesweeperAI) (c : Cell) (k : Int) :
    (ai.add_knowledge c k).knowledge.length = ai.knowledge.length + 1 := by
  simp only [MinesweeperAI.add_knowledge]
  rw [infer_new_knowledge_fixes_length]
  simp [MinesweeperAI.mark_safe]

theorem add_knowledge_moves_subset_safes (ai : MinesweeperAI) (c : Cell) (k : Int)
    (h : ai.moves_made ⊆ ai.safes) :
    (ai.add_knowledge c k).moves_made ⊆ (ai.add_knowledge c k).safes := by
  rw [add_knowledge_moves]
  exact (pyAdd_subset_pyAdd c h).trans (add_knowledge_safes_sub ai c k)

theorem foldl_moves_subset_safes (clues : List (Cell × Int)) :
    ∀ a : MinesweeperAI, a.moves_made ⊆ a.safes →
      (clues.foldl (fun x p => x.add_knowledge p.1 p.2) a).moves_made ⊆
        (clues.foldl (fun x p => x.add_knowledge p.1 p.2) a).safes := by
  induction clues with
  | nil => exact fun a h => h
  | cons p t ih => exact fun a h => ih _ (add_knowledge_moves_subset_safes a p.1 p.2 h)

theorem foldl_knowledge_length (clues : List (Cell × Int)) :
    ∀ a : MinesweeperAI,
      (clues.foldl (fun x p => x.add_knowledge p.1 p.2) a).knowledge.length =
        a.knowledge.length + clues.length := by
  induction clues with
  | nil => intro a; simp
  | cons p t ih =>
    intro a
    rw [List.foldl_cons, ih, add_knowledge_len, List.length_cons]
    omega

/-! ### The claims -/

/-- C1: with the two statements `{A,B,C} = 2` and `{A,B} = 1` in the
knowledge base, the propagation pass that `add_knowledge` invokes is the
identity — in particular it does not derive `{C} = 1` and does not add
`C = (0,2)` to the known mines.  The subset-inference step the claim
describes exists in the source only inside a commented-out block, while
the surrounding docstring still promises it. -/
theorem c1_no_subset_inference :
    scenarioB.infer_new_knowledge = scenarioB ∧
      ((0 : Int), (2 : Int)) ∉ scenarioB.infer_new_knowledge.mines := by
  decide

/-- C3: the engine state reached on a 1×4 grid by
`add_knowledge((0,2), 1)` then `add_knowledge((0,0), 1)` is not a fixed
point of the propagation pass: one more pass with no new clue adds
`(0,3)` to `known_safe`.  The `while` loop of `add_knowledge` stops as
soon as the knowledge-list length is unchanged, which is always after one
pass, before propagation has actually stabilised. -/
theorem c3_extra_pass_changes_state :
    ((0 : Int), (3 : Int)) ∈
        (runClues 1 4 [(((0 : Int), (2 : Int)), 1), (((0 : Int), (0 : Int)), 1)]).infer_new_knowledge.safes ∧
      ((0 : Int), (3 : Int)) ∉
        (runClues 1 4 [(((0 : Int), (2 : Int)), 1), (((0 : Int), (0 : Int)), 1)]).safes := by
  decide

/-- C5: `make_random_move` is deterministic — it consults no random
source (its model takes no sampler argument at all) and returns the first
in-bounds cell in row-major order that is not a known mine and not an
already-made move.  On a fresh 1×2 engine the candidate set is
`{(0,0), (0,1)}`, yet the function always returns `(0,0)`; `(0,1)` can
never be returned, so the choice is not uniform over the candidate set. -/
theorem c5_first_cell_not_random :
    (MinesweeperAI.start 1 2).make_random_move = some ((0 : Int), (0 : Int)) ∧
      ((0 : Int), (1 : Int)) ∈ gridCells 1 2 ∧
      ((0 : Int), (1 : Int)) ∉ (MinesweeperAI.start 1 2).mines ∧
      ((0 : Int), (1 : Int)) ∉ (MinesweeperAI.start 1 2).moves_made := by
  decide

/-- C8 counterexample: `Sentence.mark_mine` applied to the statement
`{(0,0)} = 0`, whose count is zero, returns normally with the count
driven to `-1` — there is no assertion or any other loud failure, and no
clamping either. -/
theorem c8_counterexample :
    ((Sentence.mk [((0 : Int), (0 : Int))] 0).mark_mine ((0 : Int), (0 : Int))).count = -1 := by
  decide

/-- C8 amended: on any statement with count `0` and any cell it contains,
`mark_mine` silently removes the cell and sets the count to `-1`;
execution continues with the negative count. -/
theorem c8_mark_mine_negative (s : Sentence) (c : Cell)
    (h0 : s.count = 0) (hc : c ∈ s.cells) :
    (s.mark_mine c).count = -1 ∧ (s.mark_mine c).cells = s.cells.erase c := by
  simp [Sentence.mark_mine, hc, h0]

/-- C8 witness: the amended statement at the concrete statement
`{(0,0)} = 0` and cell `(0,0)`. -/
theorem c8_mark_mine_negative_witness :
    ((Sentence.mk [((0 : Int), (0 : Int))] 0).mark_mine ((0 : Int), (0 : Int))).count = -1 ∧
      ((Sentence.mk [((0 : Int), (0 : Int))] 0).mark_mine ((0 : Int), (0 : Int))).cells =
        [((0 : Int), (0 : Int))].erase ((0 : Int), (0 : Int)) :=
  c8_mark_mine_negative (Sentence.mk [((0 : Int), (0 : Int))] 0) ((0 : Int), (0 : Int))
    (by decide) (by decide)

/-- C9 counterexample: after the clue sequence
`((0,2),1), ((0,0),1), ((0,4),1)` on a 1×5 engine — a state reachable
purely through `add_knowledge` — the cell `(0,3)` is in `known_safe` and
in `known_hazard` at the same time, so the two sets are not disjoint. -/
theorem c9_counterexample :
    ((0 : Int), (3 : Int)) ∈
        (runClues 1 5 [(((0 : Int), (2 : Int)), 1), (((0 : Int), (0 : Int)), 1),
          (((0 : Int), (4 : Int)), 1)]).safes ∧
      ((0 : Int), (3 : Int)) ∈
        (runClues 1 5 [(((0 : Int), (2 : Int)), 1), (((0 : Int), (0 : Int)), 1),
          (((0 : Int), (4 : Int)), 1)]).mines := by
  decide

/-- C9 amended: for every engine state reached by a sequence of
`add_knowledge` calls, every cell of `moves_made` is also in
`known_safe`; the disjointness half of the claim fails (see the
counterexample). -/
theorem c9_moves_subset_safes (height width : Nat) (clues : List (Cell × Int)) :
    (runClues height width clues).moves_made ⊆ (runClues height width clues).safes := by
  unfold runClues
  exact foldl_moves_subset_safes clues (MinesweeperAI.start height width)
    (fun x hx => absurd hx (List.not_mem_nil x))

/-- C10: every `add_knowledge` call grows the knowledge list by exactly
one statement (the clue's own neighbor sentence); the propagation pass
never adds or removes statements and only ever shrinks each statement's
cell set in place; hence after `n` calls the collection holds exactly `n`
statements. -/
theorem c10_knowledge_length (ai : MinesweeperAI) (cell : Cell) (count : Int)
    (height width : Nat) (clues : List (Cell × Int)) :
    (ai.add_knowledge cell count).knowledge.length = ai.knowledge.length + 1 ∧
      ai.infer_new_knowledge.knowledge.length = ai.knowledge.length ∧
      List.Forall₂ (fun s t : Sentence => t.cells ⊆ s.cells)
        ai.knowledge ai.infer_new_knowledge.knowledge ∧
      (runClues height width clues).knowledge.length = clues.length := by
  refine ⟨add_knowledge_len ai cell count, infer_new_knowledge_fixes_length ai,
    (aistep_infer ai).2.2.2.2.2, ?_⟩
  unfold runClues
  rw [foldl_knowledge_length]
  simp [MinesweeperAI.start]

theorem sampleHead_mem (l : List Cell) (h : l ≠ []) : sampleHead l ∈ l := by
  cases l with
  | nil => exact absurd rfl h
  | cons x t => simp [sampleHead]

/-- C2: on a 1×3 engine, `add_knowledge((0,0), 0)` puts `(0,1)` into
`known_safe`; a further `add_knowledge((0,1), 0)` puts `(0,2)` into
`known_safe`; and `make_safe_move` called after both returns `(0,2)`, for
any sampler that returns an element of its nonempty argument. -/
theorem c2_scenario_A (sample : List Cell → Cell)
    (hs : ∀ l : List Cell, l ≠ [] → sample l ∈ l) :
    ((0 : Int), (1 : Int)) ∈ (runClues 1 3 [(((0 : Int), (0 : Int)), 0)]).safes ∧
      ((0 : Int), (2 : Int)) ∈
        (runClues 1 3 [(((0 : Int), (0 : Int)), 0), (((0 : Int), (1 : Int)), 0)]).safes ∧
      (runClues 1 3 [(((0 : Int), (0 : Int)), 0),
          (((0 : Int), (1 : Int)), 0)]).make_safe_move sample = some ((0 : Int), (2 : Int)) := by
  refine ⟨by decide, by decide, ?_⟩
  have hdiff :
      pyDiff (runClues 1 3 [(((0 : Int), (0 : Int)), 0), (((0 : Int), (1 : Int)), 0)]).safes
        (runClues 1 3 [(((0 : Int), (0 : Int)), 0), (((0 : Int), (1 : Int)), 0)]).moves_made =
        [((0 : Int), (2 : Int))] := by
    decide
  have hmem := hs [((0 : Int), (2 : Int))] (by simp)
  simp only [List.mem_singleton] at hmem
  simp only [MinesweeperAI.make_safe_move, hdiff]
  rw [if_neg (by decide), if_neg (by simp)]
  rw [hmem]

/-- C2 witness: the scenario instantiated with the concrete head-of-list
sampler. -/
theorem c2_scenario_A_witness :
    ((0 : Int), (1 : Int)) ∈ (runClues 1 3 [(((0 : Int), (0 : Int)), 0)]).safes ∧
      ((0 : Int), (2 : Int)) ∈
        (runClues 1 3 [(((0 : Int), (0 : Int)), 0), (((0 : Int), (1 : Int)), 0)]).safes ∧
      (runClues 1 3 [(((0 : Int), (0 : Int)), 0),
          (((0 : Int), (1 : Int)), 0)]).make_safe_move sampleHead = some ((0 : Int), (2 : Int)) :=
  c2_scenario_A sampleHead sampleHead_mem

theorem mem_gridCells (height width : Nat) (c : Cell) :
    c ∈ gridCells height width ↔
      0 ≤ c.1 ∧ c.1 < (height : Int) ∧ 0 ≤ c.2 ∧ c.2 < (width : Int) := by
  unfold gridCells
  simp only [List.mem_flatMap, List.mem_map, List.mem_range]
  constructor
  · rintro ⟨i, hi, j, hj, rfl⟩
    refine ⟨Int.natCast_nonneg i, ?_, Int.natCast_nonneg j, ?_⟩
    · show (i : Int) < (height : Int)
      exact_mod_cast hi
    · show (j : Int) < (width : Int)
      exact_mod_cast hj
  · rintro ⟨h1, h2, h3, h4⟩
    refine ⟨c.1.toNat, by omega, c.2.toNat, by omega, ?_⟩
    exact Prod.ext (Int.toNat_of_nonneg h1) (Int.toNat_of_nonneg h3)

theorem length_gridCells (height width : Nat) :
    (gridCells height width).length = height * width := by
  unfold gridCells
  rw [List.length_flatMap]
  have h : (List.range height).map
      (List.length ∘ fun (i : Nat) => (List.range width).map (fun (j : Nat) => ((↑i, ↑j) : Cell))) =
      (List.range height).map (fun _ => width) := by
    refine List.map_congr_left ?_
    intro a _
    simp
  rw [h, List.map_const', List.sum_replicate, smul_eq_mul, List.length_range]

theorem nodup_gridCells (height width : Nat) : (gridCells height width).Nodup := by
  unfold gridCells
  rw [List.nodup_flatMap]
  constructor
  · intro i hi
    refine List.Nodup.map ?_ (List.nodup_range width)
    intro a b hab
    have h2 : (a : Int) = (b : Int) := (Prod.ext_iff.mp hab).2
    exact_mod_cast h2
  · refine List.Pairwise.imp ?_ (List.nodup_range height)
    intro a b hab x hxa hxb
    simp only [List.mem_map, List.mem_range] at hxa hxb
    obtain ⟨j, _, rfl⟩ := hxa
    obtain ⟨j', _, he⟩ := hxb
    simp only [Prod.mk.injEq, Nat.cast_inj] at he
    exact hab he.1.symm

/-- C4 counterexample: on a fresh 1×1 engine the terminal condition
`len(moves_made) + len(mines) = height * width` is false (0 ≠ 1), yet
`make_safe_move` returns `None` because no safe cell is known — so
"returns `None` iff the terminal condition holds" fails for
`make_safe_move`. -/
theorem c4_counterexample :
    (MinesweeperAI.start 1 1).make_safe_move sampleHead = none ∧
      ¬((MinesweeperAI.start 1 1).moves_made.length + (MinesweeperAI.start 1 1).mines.length =
          (MinesweeperAI.start 1 1).height * (MinesweeperAI.start 1 1).width) := by
  decide

/-- C4 amended: for states whose move and mine sets are duplicate-free,
disjoint, and within the grid, `make_random_move` returns `None` exactly
when `len(moves_made) + len(mines) = height * width`, while
`make_safe_move` returns `None` exactly when that condition holds or
`safes - moves_made` is empty (so it also returns `None` in non-terminal
states with no known safe move). -/
theorem c4_move_none_iff (ai : MinesweeperAI) (sample : List Cell → Cell)
    (hmvnd : ai.moves_made.Nodup) (hmnnd : ai.mines.Nodup)
    (hdisj : ∀ c ∈ ai.moves_made, c ∉ ai.mines)
    (hmvg : ∀ c ∈ ai.moves_made, c ∈ gridCells ai.height ai.width)
    (hmng : ∀ c ∈ ai.mines, c ∈ gridCells ai.height ai.width) :
    (ai.make_random_move = none ↔
        ai.moves_made.length + ai.mines.length = ai.height * ai.width) ∧
      (ai.make_safe_move sample = none ↔
        (ai.moves_made.length + ai.mines.length = ai.height * ai.width ∨
          pyDiff ai.safes ai.moves_made = [])) := by
  constructor
  · unfold MinesweeperAI.make_random_move
    by_cases hterm : ai.moves_made.length + ai.mines.length = ai.height * ai.width
    · rw [if_pos hterm]
      simp [hterm]
    · rw [if_neg hterm]
      simp only [hterm, iff_false]
      intro hnone
      rw [List.find?_eq_none] at hnone
      have hmem : ∀ x ∈ gridCells ai.height ai.width, x ∈ ai.mines ∨ x ∈ ai.moves_made := by
        intro x hx
        have h := hnone x hx
        simp only [decide_eq_true_eq, not_and, not_not] at h
        by_cases hx1 : x ∈ ai.mines
        · exact Or.inl hx1
        · exact Or.inr (h hx1)
      have hdisjF : Disjoint ai.mines.toFinset ai.moves_made.toFinset := by
        rw [Finset.disjoint_right]
        intro a ha hb
        rw [List.mem_toFinset] at ha hb
        exact hdisj a ha hb
      have hsub : (gridCells ai.height ai.width).toFinset ⊆
          ai.mines.toFinset ∪ ai.moves_made.toFinset := by
        intro x hx
        rw [List.mem_toFinset] at hx
        rcases hmem x hx with h | h <;> simp [List.mem_toFinset, h]
      have hsub2 : ai.mines.toFinset ∪ ai.moves_made.toFinset ⊆
          (gridCells ai.height ai.width).toFinset := by
        intro x hx
        rcases Finset.mem_union.mp hx with h | h <;> rw [List.mem_toFinset] at h ⊢
        · exact hmng x h
        · exact hmvg x h
      have hcard1 : (gridCells ai.height ai.width).toFinset.card = ai.height * ai.width := by
        rw [List.toFinset_card_of_nodup (nodup_gridCells ai.height ai.width), length_gridCells]
      have hcard2 : (ai.mines.toFinset ∪ ai.moves_made.toFinset).card =
          ai.mines.length + ai.moves_made.length := by
        rw [Finset.card_union_of_disjoint hdisjF, List.toFinset_card_of_nodup hmnnd,
          List.toFinset_card_of_nodup hmvnd]
      have hle1 := Finset.card_le_card hsub
      have hle2 := Finset.card_le_card hsub2
      rw [hcard1, hcard2] at hle1 hle2
      omega
  · unfold MinesweeperAI.make_safe_move
    by_cases h1 : ai.moves_made.length + ai.mines.length = ai.height * ai.width
    · rw [if_pos h1]
      simp [h1]
    · rw [if_neg h1]
      by_cases h2 : (pyDiff ai.safes ai.moves_made).length = 0
      · rw [if_pos h2]
        simp [h1, List.length_eq_zero.mp h2]
      · rw [if_neg h2]
        simp only [h1, false_or]
        constructor
        · intro hc
          exact absurd hc (Option.some_ne_none _)
        · intro hc
          exact absurd (by rw [hc]; rfl) h2

/-- C4 witness: the amended statement at a fresh 2×2 engine (all
hypotheses hold for the empty move and mine sets). -/
theorem c4_move_none_iff_witness :
    ((MinesweeperAI.start 2 2).make_random_move = none ↔
        (MinesweeperAI.start 2 2).moves_made.length + (MinesweeperAI.start 2 2).mines.length =
          (MinesweeperAI.start 2 2).height * (MinesweeperAI.start 2 2).width) ∧
      ((MinesweeperAI.start 2 2).make_safe_move sampleHead = none ↔
        ((MinesweeperAI.start 2 2).moves_made.length + (MinesweeperAI.start 2 2).mines.length =
            (MinesweeperAI.start 2 2).height * (MinesweeperAI.start 2 2).width ∨
          pyDiff (MinesweeperAI.start 2 2).safes (MinesweeperAI.start 2 2).moves_made = [])) :=
  c4_move_none_iff (MinesweeperAI.start 2 2) sampleHead (by decide) (by decide)
    (by decide) (by decide) (by decide)

theorem pyIndex_isSome {α : Type} (l : List α) (i : Int) :
    (pyIndex l i).isSome = true ↔ (-(l.length : Int) ≤ i ∧ i < (l.length : Int)) := by
  unfold pyIndex
  by_cases h1 : 0 ≤ i ∧ i < (l.length : Int)
  · rw [if_pos h1]
    have hlt : i.toNat < l.length := by omega
    rw [List.getElem?_eq_getElem hlt]
    simp only [Option.isSome_some, true_iff]
    omega
  · rw [if_neg h1]
    by_cases h2 : -(l.length : Int) ≤ i ∧ i < 0
    · rw [if_pos h2]
      have hlt : ((l.length : Int) + i).toNat < l.length := by omega
      rw [List.getElem?_eq_getElem hlt]
      simp only [Option.isSome_some, true_iff]
      omega
    · rw [if_neg h2]
      simp only [Option.isSome_none, Bool.false_eq_true, false_iff]
      omega

theorem pyIndex_of_nonneg {α : Type} (l : List α) (i : Int)
    (h0 : 0 ≤ i) (hl : i < (l.length : Int)) :
    pyIndex l i = l[i.toNat]? := by
  unfold pyIndex
  rw [if_pos ⟨h0, hl⟩]

theorem pyIndex_mem {α : Type} {l : List α} {i : Int} {x : α}
    (h : pyIndex l i = some x) : x ∈ l := by
  unfold pyIndex at h
  by_cases h1 : 0 ≤ i ∧ i < (l.length : Int)
  · rw [if_pos h1] at h
    exact List.getElem?_mem h
  · rw [if_neg h1] at h
    by_cases h2 : -(l.length : Int) ≤ i ∧ i < 0
    · rw [if_pos h2] at h
      exact List.getElem?_mem h
    · rw [if_neg h2] at h
      exact absurd h (Option.noConfusion)

/-- C7 counterexample: on the well-formed 1×1 board `M11`, the coordinate
`(-1, -1)` lies outside `[0,1)×[0,1)`, yet `is_mine` raises nothing: the
negative indices wrap around Python-style and the call returns the entry
`False`. -/
theorem c7_counterexample :
    M11.is_mine ((-1 : Int), (-1 : Int)) = some false := by
  decide

/-- C7 amended: for a well-formed board, `is_mine` returns a value (the
board entry) rather than raising exactly when the row index lies in
`[-height, height)` and the column index lies in `[-width, width)` —
negative in-range coordinates wrap around Python-style instead of
raising, and there is no `OutOfBoundsError` in the code at all (an
out-of-range index raises `IndexError`, modelled as `none`); for
coordinates inside `[0,height)×[0,width)` the call returns the
`hazard_grid` entry. -/
theorem c7_is_mine_bounds (m : Minesweeper) (i j : Int)
    (hh : m.board.length = m.height)
    (hw : ∀ row ∈ m.board, row.length = m.width) :
    ((m.is_mine (i, j)).isSome = true ↔
      (-(m.height : Int) ≤ i ∧ i < (m.height : Int) ∧
        -(m.width : Int) ≤ j ∧ j < (m.width : Int))) ∧
      (0 ≤ i → i < (m.height : Int) → 0 ≤ j → j < (m.width : Int) →
        m.is_mine (i, j) = some ((m.board.getD i.toNat []).getD j.toNat false)) := by
  constructor
  · unfold Minesweeper.is_mine
    cases hrow : pyIndex m.board i with
    | none =>
      have h := pyIndex_isSome m.board i
      rw [hrow, hh] at h
      simp only [Option.isSome_none, Bool.false_eq_true, false_iff] at h
      simp only [Option.none_bind, Option.isSome_none, Bool.false_eq_true, false_iff]
      intro hc
      exact h ⟨hc.1, hc.2.1⟩
    | some row =>
      have hr := pyIndex_isSome m.board i
      rw [hrow, hh] at hr
      simp only [Option.isSome_some, true_iff] at hr
      have hrlen : row.length = m.width := hw row (pyIndex_mem hrow)
      simp only [Option.some_bind]
      rw [pyIndex_isSome row j, hrlen]
      constructor
      · intro hc
        exact ⟨hr.1, hr.2, hc.1, hc.2⟩
      · intro hc
        exact ⟨hc.2.2.1, hc.2.2.2⟩
  · intro h0 h1 h2 h3
    unfold Minesweeper.is_mine
    have hin : i.toNat < m.board.length := by omega
    have hrow : pyIndex m.board i = some m.board[i.toNat] := by
      rw [pyIndex_of_nonneg m.board i h0 (by omega), List.getElem?_eq_getElem hin]
    have hrlen : m.board[i.toNat].length = m.width := hw _ (List.getElem_mem hin)
    have hjin : j.toNat < m.board[i.toNat].length := by omega
    have hcol : pyIndex m.board[i.toNat] j = some m.board[i.toNat][j.toNat] := by
      rw [pyIndex_of_nonneg _ j h2 (by omega), List.getElem?_eq_getElem hjin]
    rw [hrow]
    simp only [Option.some_bind]
    rw [hcol]
    have hb : m.board.getD i.toNat [] = m.board[i.toNat] := by
      rw [List.getD_eq_getElem?_getD, List.getElem?_eq_getElem hin]
      rfl
    rw [hb, List.getD_eq_getElem?_getD, List.getElem?_eq_getElem hjin]
    rfl

/-- C7 witness: the amended statement at the in-bounds coordinate `(0,0)`
of the concrete board `M11`, whose entry is `False`. -/
theorem c7_is_mine_bounds_witness :
    (M11.is_mine ((0 : Int), (0 : Int))).isSome = true ∧
      M11.is_mine ((0 : Int), (0 : Int)) = some false := by
  have h := c7_is_mine_bounds M11 0 0 (by decide) (by decide)
  refine ⟨(h.1).mpr (by decide), ?_⟩
  have h2 := h.2 (by decide) (by decide) (by decide) (by decide)
  simpa using h2

theorem getD_default_irrel {α : Type} (l : List α) (n : Nat) (d₁ d₂ : α)
    (h : n < l.length) : l.getD n d₁ = l.getD n d₂ := by
  rw [List.getD_eq_getElem?_getD, List.getD_eq_getElem?_getD, List.getElem?_eq_getElem h]
  rfl

theorem getD_mem {α : Type} (l : List α) (n : Nat) (d : α) (h : n < l.length) :
    l.getD n d ∈ l := by
  rw [List.getD_eq_getElem?_getD, List.getElem?_eq_getElem h]
  exact List.getElem_mem h

theorem pyAdd_nodup {α : Type} [DecidableEq α] (l : List α) (a : α) (h : l.Nodup) :
    (pyAdd l a).Nodup := by
  unfold pyAdd
  split
  · exact h
  · next hna =>
    rw [List.nodup_append]
    refine ⟨h, List.nodup_singleton a, ?_⟩
    intro x hx hx2
    rw [List.mem_singleton] at hx2
    subst hx2
    exact hna hx

theorem placeMinesLoop_some_spec (target h w : Nat) :
    ∀ (picks : List (Nat × Nat)) (ms : List (Nat × Nat)) (bd : List (List Bool)),
      (∀ p ∈ picks, p.1 < h ∧ p.2 < w) →
      ms.Nodup →
      (∀ p ∈ ms, p.1 < h ∧ p.2 < w) →
      bd.length = h →
      (∀ row ∈ bd, row.length = w) →
      (∀ a b, a < h → b < w → ((bd.getD a []).getD b false = decide ((a, b) ∈ ms))) →
      ∀ ms' bd', placeMinesLoop target picks ms bd = some (ms', bd') →
        ms'.length = target ∧ ms'.Nodup ∧ (∀ p ∈ ms', p.1 < h ∧ p.2 < w) ∧
          bd'.length = h ∧ (∀ row ∈ bd', row.length = w) ∧
          (∀ a b, a < h → b < w →
            ((bd'.getD a []).getD b false = decide ((a, b) ∈ ms'))) := by
  intro picks
  induction picks with
  | nil =>
    intro ms bd _ hnd hmsb hlen hrows hent ms' bd' hsome
    simp only [placeMinesLoop] at hsome
    split at hsome
    · next hts =>
      rw [Option.some.injEq, Prod.mk.injEq] at hsome
      obtain ⟨rfl, rfl⟩ := hsome
      exact ⟨hts, hnd, hmsb, hlen, hrows, hent⟩
    · exact absurd hsome (Option.noConfusion)
  | cons p rest ih =>
    obtain ⟨i, j⟩ := p
    intro ms bd hp hnd hmsb hlen hrows hent ms' bd' hsome
    have hij : i < h ∧ j < w := hp (i, j) (List.mem_cons_self _ _)
    have htail : ∀ q ∈ rest, q.1 < h ∧ q.2 < w :=
      fun q hq => hp q (List.mem_cons_of_mem _ hq)
    simp only [placeMinesLoop] at hsome
    split at hsome
    · next hts =>
      rw [Option.some.injEq, Prod.mk.injEq] at hsome
      obtain ⟨rfl, rfl⟩ := hsome
      exact ⟨hts, hnd, hmsb, hlen, hrows, hent⟩
    · split at hsome
      · exact ih ms bd htail hnd hmsb hlen hrows hent ms' bd' hsome
      · next hfalse =>
        rw [Bool.not_eq_true] at hfalse
        have hilt : i < bd.length := by omega
        have hrowlen : (bd.getD i []).length = w := hrows _ (getD_mem bd i [] hilt)
        have hjlt : j < (bd.getD i []).length := by omega
        have hff : (bd.getD i []).getD j false = false := by
          rw [getD_default_irrel _ _ false true hjlt]
          exact hfalse
        have hnm : (i, j) ∉ ms := by
          have he := hent i j hij.1 hij.2
          rw [hff] at he
          exact of_decide_eq_false he.symm
        have hpy : pyAdd ms (i, j) = ms ++ [(i, j)] := by
          unfold pyAdd
          rw [if_neg hnm]
        have hnd' : (pyAdd ms (i, j)).Nodup := pyAdd_nodup ms (i, j) hnd
        have hmsb' : ∀ q ∈ pyAdd ms (i, j), q.1 < h ∧ q.2 < w := by
          intro q hq
          rcases (mem_pyAdd ms (i, j) q).mp hq with h1 | h1
          · exact hmsb q h1
          · subst h1
            exact hij
        have hlen' : (setBoard bd i j).length = h := by
          unfold setBoard
          rw [List.length_set]
          exact hlen
        have hrows' : ∀ row ∈ setBoard bd i j, row.length = w := by
          intro row hrow
          unfold setBoard at hrow
          rcases List.mem_or_eq_of_mem_set hrow with h1 | h1
          · exact hrows row h1
          · subst h1
            rw [List.length_set]
            exact hrowlen
        have hent' : ∀ a b, a < h → b < w →
            (((setBoard bd i j).getD a []).getD b false = decide ((a, b) ∈ pyAdd ms (i, j))) := by
          intro a b ha hb
          rw [hpy]
          unfold setBoard
          by_cases hai : a = i
          · subst hai
            have hrowset : (bd.set a ((bd.getD a []).set j true)).getD a [] =
                (bd.getD a []).set j true := by
              rw [List.getD_eq_getElem?_getD, List.getElem?_set_self (by omega)]
              rfl
            rw [hrowset]
            by_cases hbj : b = j
            · subst hbj
              have hset : ((bd.getD a []).set b true).getD b false = true := by
                rw [List.getD_eq_getElem?_getD, List.getElem?_set_self (by omega)]
                rfl
              rw [hset]
              have hmemr : (a, b) ∈ ms ++ [(a, b)] :=
                List.mem_append_right _ (List.mem_singleton.mpr rfl)
              simp [hmemr]
            · have hset : ((bd.getD a []).set j true).getD b false =
                  (bd.getD a []).getD b false := by
                rw [List.getD_eq_getElem?_getD,
                  List.getElem?_set_ne (fun he => hbj he.symm),
                  ← List.getD_eq_getElem?_getD]
              rw [hset, hent a b ha hb, decide_eq_decide]
              constructor
              · exact fun h1 => List.mem_append_left _ h1
              · intro h1
                rcases List.mem_append.mp h1 with h1 | h1
                · exact h1
                · rw [List.mem_singleton] at h1
                  exact absurd (Prod.ext_iff.mp h1).2 hbj
          · have hrowset : (bd.set i ((bd.getD i []).set j true)).getD a [] =
                bd.getD a [] := by
              rw [List.getD_eq_getElem?_getD,
                List.getElem?_set_ne (fun he => hai he.symm),
                ← List.getD_eq_getElem?_getD]
            rw [hrowset, hent a b ha hb, decide_eq_decide]
            constructor
            · exact fun h1 => List.mem_append_left _ h1
            · intro h1
              rcases List.mem_append.mp h1 with h1 | h1
              · exact h1
              · rw [List.mem_singleton] at h1
                exact absurd (Prod.ext_iff.mp h1).1 hai
        exact ih (pyAdd ms (i, j)) (setBoard bd i j) htail hnd' hmsb' hlen' hrows' hent'
          ms' bd' hsome

theorem placeMinesLoop_none_of_overcap (target h w : Nat) (hcap : h * w < target) :
    ∀ (picks : List (Nat × Nat)) (ms : List (Nat × Nat)) (bd : List (List Bool)),
      (∀ p ∈ picks, p.1 < h ∧ p.2 < w) →
      ms.Nodup →
      (∀ p ∈ ms, p.1 < h ∧ p.2 < w) →
      placeMinesLoop target picks ms bd = none := by
  have key : ∀ ms : List (Nat × Nat), ms.Nodup → (∀ p ∈ ms, p.1 < h ∧ p.2 < w) →
      ms.length ≤ h * w := by
    intro ms hnd hb
    have hsub : ms.toFinset ⊆ (Finset.range h) ×ˢ (Finset.range w) := by
      intro q hq
      rw [List.mem_toFinset] at hq
      obtain ⟨h1, h2⟩ := hb q hq
      rw [Finset.mem_product, Finset.mem_range, Finset.mem_range]
      exact ⟨h1, h2⟩
    have hc := Finset.card_le_card hsub
    rw [List.toFinset_card_of_nodup hnd, Finset.card_product, Finset.card_range,
      Finset.card_range] at hc
    exact hc
  intro picks
  induction picks with
  | nil =>
    intro ms bd _ hnd hb
    simp only [placeMinesLoop]
    rw [if_neg (by have := key ms hnd hb; omega)]
  | cons p rest ih =>
    obtain ⟨i, j⟩ := p
    intro ms bd hp hnd hb
    have hij : i < h ∧ j < w := hp (i, j) (List.mem_cons_self _ _)
    have htail : ∀ q ∈ rest, q.1 < h ∧ q.2 < w :=
      fun q hq => hp q (List.mem_cons_of_mem _ hq)
    simp only [placeMinesLoop]
    rw [if_neg (by have := key ms hnd hb; omega)]
    split
    · exact ih ms bd htail hnd hb
    · refine ih (pyAdd ms (i, j)) (setBoard bd i j) htail (pyAdd_nodup ms (i, j) hnd) ?_
      intro q hq
      rcases (mem_pyAdd ms (i, j) q).mp hq with h1 | h1
      · exact hb q h1
      · subst h1
        exact hij

/-- C6 counterexample: constructing a 1×1 board with `mines = 2` raises
no `InvalidConfigurationError` (no such error exists anywhere in the
code); the placement loop just never completes — here run against a
concrete three-element pick stream, it consumes every pick and still has
no result. -/
theorem c6_counterexample :
    Minesweeper.construct 1 1 2 [(0, 0), (0, 0), (0, 0)] = none := by
  decide

/-- C6 amended: board construction performs no capacity check at all.
When `mine_count > height * width` it does not raise
`InvalidConfigurationError` — the placement loop can never terminate
(for every in-range pick stream the model yields no board).  When it does
complete, it has placed exactly `mine_count` distinct in-bounds mines,
and the mine set matches the true entries of the board. -/
theorem c6_construction (height width target : Nat) (picks : List (Nat × Nat))
    (hp : ∀ p ∈ picks, p.1 < height ∧ p.2 < width) :
    (height * width < target →
        Minesweeper.construct height width target picks = none) ∧
      (∀ m, Minesweeper.construct height width target picks = some m →
        m.mines.length = target ∧ m.mines.Nodup ∧
          (∀ p ∈ m.mines, p.1 < height ∧ p.2 < width) ∧
          (∀ a b, a < height → b < width →
            ((m.board.getD a []).getD b false = decide ((a, b) ∈ m.mines)))) := by
  constructor
  · intro hcap
    unfold Minesweeper.construct
    rw [placeMinesLoop_none_of_overcap target height width hcap picks []
      (List.replicate height (List.replicate width false)) hp List.nodup_nil
      (fun p hp' => absurd hp' (List.not_mem_nil p))]
    rfl
  · intro m hm
    unfold Minesweeper.construct at hm
    obtain ⟨r, hr, hm2⟩ := Option.map_eq_some'.mp hm
    obtain ⟨ms', bd'⟩ := r
    subst hm2
    have hlen0 : (List.replicate height (List.replicate width false)).length = height :=
      List.length_replicate height _
    have hrows0 : ∀ row ∈ List.replicate height (List.replicate width false),
        row.length = width := by
      intro row hrow
      rw [List.eq_of_mem_replicate hrow]
      exact List.length_replicate width false
    have hent0 : ∀ a b, a < height → b < width →
        (((List.replicate height (List.replicate width false)).getD a []).getD b false =
          decide ((a, b) ∈ ([] : List (Nat × Nat)))) := by
      intro a b ha hb
      have h1 : (List.replicate height (List.replicate width false)).getD a [] =
          List.replicate width false := by
        rw [List.getD_eq_getElem?_getD, List.getElem?_replicate, if_pos ha]
        rfl
      rw [h1]
      have h2 : (List.replicate width false).getD b false = false := by
        rw [List.getD_eq_getElem?_getD, List.getElem?_replicate, if_pos hb]
        rfl
      rw [h2]
      simp
    obtain ⟨h1, h2, h3, _, _, h6⟩ :=
      placeMinesLoop_some_spec target height width picks []
        (List.replicate height (List.replicate width false)) hp List.nodup_nil
        (fun p hp' => absurd hp' (List.not_mem_nil p)) hlen0 hrows0 hent0 ms' bd' hr
    exact ⟨h1, h2, h3, h6⟩

/-- C6 witness: a 2×2 construction with two picks completes and places
exactly two distinct mines. -/
theorem c6_construction_witness :
    Minesweeper.construct 2 2 2 [(0, 0), (1, 1)] = some M22 ∧
      M22.mines.length = 2 := by
  refine ⟨by decide, ?_⟩
  exact ((c6_construction 2 2 2 [(0, 0), (1, 1)] (by decide)).2 M22 (by decide)).1
